import Mathlib

/-!
Shallow embedding of `scripts/migration/migrate_historian_data.py`
(class `HistorianMigration`): the batch-windowing migration engine that
copies Ignition historian rows from a source table to a TimescaleDB
target table, plus its validation pass.

Tables are modelled as lists of rows; SQL statements are translated to
their semantics on those lists:
  - `SELECT MIN(t_stamp), MAX(t_stamp)` on an empty table yields the SQL
    NULLs, modelled as `none`;
  - the batch read `WHERE t_stamp >= s AND t_stamp < e ORDER BY t_stamp`
    is a filter followed by a sort on `t_stamp`;
  - `INSERT ... ON CONFLICT DO NOTHING` is an insert that is skipped when
    the target already holds a row with the same uniqueness key.
A Python-level exception (the `None < None` comparison that a run hits on
an empty source table) surfaces as `Except.error`.
-/

namespace MigrateHistorianData

/-- One historian row, the column tuple read and written by the script:
`(tagid, intvalue, floatvalue, stringvalue, datevalue, dataintegrity, t_stamp)`.
`t_stamp` is epoch milliseconds; the SQL double `floatvalue` is modelled
as a rational. -/
structure Row where
  tagid : Int
  intvalue : Option Int
  floatvalue : Option Rat
  stringvalue : Option String
  datevalue : Option Int
  dataintegrity : Int
  t_stamp : Int
  deriving DecidableEq

/-- A concrete row used by closed test theorems: given tag key and
timestamp, the remaining value columns fixed. -/
def mkRow (tag ts : Int) : Row :=
  ⟨tag, some 1, none, none, none, 192, ts⟩

/-- Modelled from the spec: the target table's uniqueness constraint,
which the source code never states (it issues a bare
`ON CONFLICT DO NOTHING`); the spec describes it as "typically a
composite of tagKey+eventTime". Two rows conflict when they agree on
`tagid` and `t_stamp`. -/
def sameKey (a b : Row) : Bool :=
  a.tagid == b.tagid && a.t_stamp == b.t_stamp

/-- The target already holds a row conflicting with `r`. -/
def hasKey (tgt : List Row) (r : Row) : Bool :=
  tgt.any fun s => sameKey s r

/-- `INSERT ... ON CONFLICT DO NOTHING` of one row: a no-op when a
conflicting row exists, otherwise the row is added. -/
def insertOnConflict (tgt : List Row) (r : Row) : List Row :=
  if hasKey tgt r then tgt else r :: tgt

/-- Insert a row into a list kept sorted by `t_stamp` (helper of the
`ORDER BY t_stamp` translation). -/
def insertByTs (r : Row) : List Row → List Row
  | [] => [r]
  | x :: xs => if r.t_stamp ≤ x.t_stamp then r :: x :: xs else x :: insertByTs r xs

/-- `ORDER BY t_stamp`: sort rows by timestamp (insertion sort; SQL fixes
only the key order, not the tie order). -/
def orderByTs : List Row → List Row
  | [] => []
  | x :: xs => insertByTs x (orderByTs xs)

/-- The batch read of `migrate_batch`:
`WHERE t_stamp >= start_ts AND t_stamp < end_ts ORDER BY t_stamp`. -/
def readWindow (startTs endTs : Int) (src : List Row) : List Row :=
  orderByTs (src.filter fun r => decide (startTs ≤ r.t_stamp) && decide (r.t_stamp < endTs))

/-- Number of source rows in the half-open window `[startTs, endTs)`. -/
def countIn (startTs endTs : Int) (src : List Row) : Nat :=
  (src.filter fun r => decide (startTs ≤ r.t_stamp) && decide (r.t_stamp < endTs)).length

/-- `HistorianMigration.migrate_batch`: read the window from the source;
if no rows, return 0 without touching the target; otherwise insert every
row into the target with `ON CONFLICT DO NOTHING` and return the number
of rows READ. -/
def migrate_batch (startTs endTs : Int) (src tgt : List Row) : Nat × List Row :=
  let records := readWindow startTs endTs src
  if records.isEmpty then (0, tgt)
  else (records.length, records.foldl insertOnConflict tgt)

/-- `SELECT MIN(t_stamp), MAX(t_stamp) FROM src`: `none` for the SQL
NULLs returned on an empty table. -/
def minMaxTs (src : List Row) : Option (Int × Int) :=
  match src.map fun r => r.t_stamp with
  | [] => none
  | t :: ts => some (ts.foldl min t, ts.foldl max t)

/-- The `while current_ts < max_ts` loop of `migrate_all`:
`end_ts = min(current_ts + 86400000, max_ts)` (the 24h batch interval is
the hard-coded literal of the source), run `migrate_batch` on
`[current_ts, end_ts)`, accumulate the count, advance to `end_ts`. -/
def migrateLoop (maxTs : Int) (src : List Row) (tgt : List Row)
    (currentTs : Int) (total : Nat) : Nat × List Row :=
  if h : currentTs < maxTs then
    let endTs := min (currentTs + 86400000) maxTs
    let res := migrate_batch currentTs endTs src tgt
    migrateLoop maxTs src res.2 endTs (total + res.1)
  else (total, tgt)
termination_by (maxTs - currentTs).toNat
decreasing_by
  simp_wf
  omega

/-- `HistorianMigration.migrate_all`: query min/max timestamps, then run
the window loop from `min_ts` with total 0. On an empty source table
both aggregates are NULL (`None` in Python) and the loop condition
`current_ts < max_ts` raises a `TypeError`, modelled as `Except.error`. -/
def migrate_all (src tgt : List Row) : Except String (Nat × List Row) :=
  match minMaxTs src with
  | none => Except.error "TypeError: NoneType comparison"
  | some (minTs, maxTs) => Except.ok (migrateLoop maxTs src tgt minTs 0)

/-- The sequence of windows `(current_ts, end_ts)` the loop of
`migrate_all` processes, in order. -/
def windowsFrom (maxTs currentTs : Int) : List (Int × Int) :=
  if h : currentTs < maxTs then
    (currentTs, min (currentTs + 86400000) maxTs) ::
      windowsFrom maxTs (min (currentTs + 86400000) maxTs)
  else []
termination_by (maxTs - currentTs).toNat
decreasing_by
  simp_wf
  omega

/-- The same window tiling with the width as an explicit parameter
(spec-side definition, used to state that the code's width is the
hard-coded constant 86400000 and no configuration changes it). -/
def tileWindows (width maxTs currentTs : Int) : List (Int × Int) :=
  if h : 0 < width ∧ currentTs < maxTs then
    (currentTs, min (currentTs + width) maxTs) ::
      tileWindows width maxTs (min (currentTs + width) maxTs)
  else []
termination_by (maxTs - currentTs).toNat
decreasing_by
  simp_wf
  omega

/-- How many of the windows `ws` contain the instant `t` under the
half-open convention `w.1 ≤ t < w.2`. -/
def windowsContaining (t : Int) (ws : List (Int × Int)) : Nat :=
  (ws.filter fun w => decide (w.1 ≤ t) && decide (t < w.2)).length

/-- The data the validation pass compares between source and target,
with a match flag per comparison (the script reports a mismatch as a
log warning, never as an error). -/
structure ValidationReport where
  sourceCount : Nat
  targetCount : Nat
  sourceRange : Option (Int × Int)
  targetRange : Option (Int × Int)
  sourceTags : Nat
  targetTags : Nat
  countsMatch : Bool
  rangesMatch : Bool
  tagsMatch : Bool
  deriving DecidableEq

/-- `SELECT COUNT(DISTINCT tagid)`. -/
def distinctTagCount (t : List Row) : Nat :=
  ((t.map fun r => r.tagid).dedup).length

/-- `HistorianMigration.validate_migration`: compare row counts,
timestamp ranges and distinct tag counts of source and target; all
statements it issues are SELECTs, so both tables pass through unchanged
(returned as the second and third components). -/
def validate_migration (src tgt : List Row) : ValidationReport × List Row × List Row :=
  (⟨src.length, tgt.length, minMaxTs src, minMaxTs tgt,
    distinctTagCount src, distinctTagCount tgt,
    src.length == tgt.length,
    minMaxTs src == minMaxTs tgt,
    distinctTagCount src == distinctTagCount tgt⟩,
   src, tgt)

/-- The constructor state of the `HistorianMigration` class that the
migration operations can observe: `batch_size` is stored by `__init__`
(fed from the `--batch-size` flag) and read by no operation. -/
structure HistorianMigration where
  batch_size : Nat

/-- The `migrate_all` method on a `HistorianMigration` instance: its body
never reads `self.batch_size`. -/
def HistorianMigration.migrateAllOp (m : HistorianMigration) (src tgt : List Row) :
    Except String (Nat × List Row) :=
  migrate_all src tgt

theorem hasKey_insertOnConflict_mono (tgt : List Row) (r x : Row)
    (h : hasKey tgt x = true) : hasKey (insertOnConflict tgt r) x = true := by
  unfold insertOnConflict
  split
  · exact h
  · simp [hasKey] at h ⊢
    rcases h with ⟨s, hs, hk⟩
    exact Or.inr ⟨s, hs, hk⟩

theorem hasKey_insertOnConflict_self (tgt : List Row) (r : Row) :
    hasKey (insertOnConflict tgt r) r = true := by
  unfold insertOnConflict
  split
  · assumption
  · simp [hasKey, sameKey]

theorem hasKey_foldl_mono (l : List Row) (tgt : List Row) (x : Row)
    (h : hasKey tgt x = true) :
    hasKey (l.foldl insertOnConflict tgt) x = true := by
  induction l generalizing tgt with
  | nil => exact h
  | cons a l ih => exact ih _ (hasKey_insertOnConflict_mono _ _ _ h)

theorem hasKey_foldl_mem (l : List Row) (tgt : List Row) (x : Row) (hx : x ∈ l) :
    hasKey (l.foldl insertOnConflict tgt) x = true := by
  induction l generalizing tgt with
  | nil => cases hx
  | cons a l ih =>
    simp only [List.foldl_cons]
    rw [List.mem_cons] at hx
    rcases hx with rfl | hx
    · exact hasKey_foldl_mono _ _ _ (hasKey_insertOnConflict_self _ _)
    · exact ih _ hx

theorem foldl_insertOnConflict_noop (l : List Row) (tgt : List Row)
    (h : ∀ x ∈ l, hasKey tgt x = true) :
    l.foldl insertOnConflict tgt = tgt := by
  induction l with
  | nil => rfl
  | cons a l ih =>
    have ha : insertOnConflict tgt a = tgt := by
      unfold insertOnConflict
      rw [h a (by simp)]
      simp
    simp only [List.foldl_cons, ha]
    exact ih fun x hx => h x (by simp [hx])

theorem length_foldl_insertOnConflict (l : List Row) (tgt : List Row) :
    (l.foldl insertOnConflict tgt).length ≤ tgt.length + l.length := by
  induction l generalizing tgt with
  | nil => simp
  | cons a l ih =>
    simp only [List.foldl_cons]
    refine le_trans (ih _) ?_
    unfold insertOnConflict
    split <;> simp <;> omega

theorem mem_insertByTs (r x : Row) (l : List Row) :
    x ∈ insertByTs r l ↔ x = r ∨ x ∈ l := by
  induction l with
  | nil => simp [insertByTs]
  | cons a l ih =>
    unfold insertByTs
    split
    · simp
    · simp [ih]
      tauto

theorem mem_orderByTs (x : Row) (l : List Row) : x ∈ orderByTs l ↔ x ∈ l := by
  induction l with
  | nil => simp [orderByTs]
  | cons a l ih =>
    unfold orderByTs
    rw [mem_insertByTs]
    simp [ih]

theorem length_insertByTs (r : Row) (l : List Row) :
    (insertByTs r l).length = l.length + 1 := by
  induction l with
  | nil => rfl
  | cons a l ih =>
    unfold insertByTs
    split
    · simp
    · simp [ih]

theorem length_orderByTs (l : List Row) : (orderByTs l).length = l.length := by
  induction l with
  | nil => rfl
  | cons a l ih =>
    unfold orderByTs
    rw [length_insertByTs, ih]
    rfl

theorem length_readWindow (s e : Int) (src : List Row) :
    (readWindow s e src).length = countIn s e src := by
  unfold readWindow countIn
  exact length_orderByTs _

theorem mem_readWindow (s e : Int) (src : List Row) (x : Row) :
    x ∈ readWindow s e src ↔ x ∈ src ∧ s ≤ x.t_stamp ∧ x.t_stamp < e := by
  unfold readWindow
  rw [mem_orderByTs]
  simp

theorem countIn_split (a b c : Int) (src : List Row) (hab : a ≤ b) (hbc : b ≤ c) :
    countIn a c src = countIn a b src + countIn b c src := by
  induction src with
  | nil => rfl
  | cons r src ih =>
    simp only [countIn, List.filter_cons] at ih ⊢
    by_cases h1 : a ≤ r.t_stamp <;> by_cases h2 : r.t_stamp < b <;>
      by_cases h3 : b ≤ r.t_stamp <;> by_cases h4 : r.t_stamp < c <;>
      simp [h1, h2, h3, h4, ih] <;> omega

theorem migrate_batch_fst (s e : Int) (src tgt : List Row) :
    (migrate_batch s e src tgt).1 = countIn s e src := by
  rw [← length_readWindow]
  by_cases hemp : (readWindow s e src).isEmpty
  · rw [List.isEmpty_iff] at hemp
    simp [migrate_batch, hemp]
  · simp [migrate_batch, hemp]

theorem hasKey_migrate_batch_mono (s e : Int) (src tgt : List Row) (x : Row)
    (h : hasKey tgt x = true) : hasKey (migrate_batch s e src tgt).2 x = true := by
  by_cases hemp : (readWindow s e src).isEmpty
  · simpa [migrate_batch, hemp] using h
  · simp only [migrate_batch, hemp, Bool.false_eq_true, if_false]
    exact hasKey_foldl_mono _ _ _ h

theorem hasKey_migrate_batch_mem (s e : Int) (src tgt : List Row) (x : Row)
    (hx : x ∈ src) (h1 : s ≤ x.t_stamp) (h2 : x.t_stamp < e) :
    hasKey (migrate_batch s e src tgt).2 x = true := by
  have hmem : x ∈ readWindow s e src := (mem_readWindow s e src x).mpr ⟨hx, h1, h2⟩
  by_cases hemp : (readWindow s e src).isEmpty
  · rw [List.isEmpty_iff] at hemp
    rw [hemp] at hmem
    cases hmem
  · simp only [migrate_batch, hemp, Bool.false_eq_true, if_false]
    exact hasKey_foldl_mem _ _ _ hmem

theorem migrate_batch_noop (s e : Int) (src tgt : List Row)
    (h : ∀ x ∈ src, s ≤ x.t_stamp → x.t_stamp < e → hasKey tgt x = true) :
    (migrate_batch s e src tgt).2 = tgt := by
  by_cases hemp : (readWindow s e src).isEmpty
  · simp [migrate_batch, hemp]
  · simp only [migrate_batch, hemp, Bool.false_eq_true, if_false]
    refine foldl_insertOnConflict_noop _ _ ?_
    intro x hx
    rw [mem_readWindow] at hx
    exact h x hx.1 hx.2.1 hx.2.2

theorem migrate_batch_len (s e : Int) (src tgt : List Row) :
    (migrate_batch s e src tgt).2.length ≤ tgt.length + (migrate_batch s e src tgt).1 := by
  by_cases hemp : (readWindow s e src).isEmpty
  · simp [migrate_batch, hemp]
  · simp only [migrate_batch, hemp, Bool.false_eq_true, if_false]
    exact length_foldl_insertOnConflict _ _

theorem migrateLoop_step (maxTs : Int) (src tgt : List Row) (cur : Int) (tot : Nat)
    (h : cur < maxTs) :
    migrateLoop maxTs src tgt cur tot =
      migrateLoop maxTs src (migrate_batch cur (min (cur + 86400000) maxTs) src tgt).2
        (min (cur + 86400000) maxTs)
        (tot + (migrate_batch cur (min (cur + 86400000) maxTs) src tgt).1) := by
  rw [migrateLoop]
  rw [dif_pos h]

theorem migrateLoop_base (maxTs : Int) (src tgt : List Row) (cur : Int) (tot : Nat)
    (h : ¬ cur < maxTs) : migrateLoop maxTs src tgt cur tot = (tot, tgt) := by
  rw [migrateLoop]
  rw [dif_neg h]

theorem migrateLoop_fst (maxTs : Int) (src tgt : List Row) (cur : Int) (tot : Nat) :
    (migrateLoop maxTs src tgt cur tot).1 = tot + countIn cur maxTs src := by
  by_cases h : cur < maxTs
  · rw [migrateLoop_step maxTs src tgt cur tot h]
    rw [migrateLoop_fst maxTs src _ (min (cur + 86400000) maxTs) _]
    rw [migrate_batch_fst]
    rw [countIn_split cur (min (cur + 86400000) maxTs) maxTs src (by omega) (by omega)]
    omega
  · rw [migrateLoop_base maxTs src tgt cur tot h]
    have hz : countIn cur maxTs src = 0 := by
      unfold countIn
      rw [List.length_eq_zero, List.filter_eq_nil]
      intro x _
      simp only [Bool.and_eq_true, decide_eq_true_eq, not_and]
      omega
    simp [hz]
termination_by (maxTs - cur).toNat
decreasing_by
  simp_wf
  omega

theorem hasKey_migrateLoop_mono (maxTs : Int) (src tgt : List Row) (cur : Int) (tot : Nat)
    (x : Row) (h : hasKey tgt x = true) :
    hasKey (migrateLoop maxTs src tgt cur tot).2 x = true := by
  by_cases hlt : cur < maxTs
  · rw [migrateLoop_step maxTs src tgt cur tot hlt]
    exact hasKey_migrateLoop_mono maxTs src _ _ _ x
      (hasKey_migrate_batch_mono _ _ _ _ _ h)
  · rw [migrateLoop_base maxTs src tgt cur tot hlt]
    exact h
termination_by (maxTs - cur).toNat
decreasing_by
  simp_wf
  omega

theorem hasKey_migrateLoop_mem (maxTs : Int) (src tgt : List Row) (cur : Int) (tot : Nat)
    (x : Row) (hx : x ∈ src) (h1 : cur ≤ x.t_stamp) (h2 : x.t_stamp < maxTs) :
    hasKey (migrateLoop maxTs src tgt cur tot).2 x = true := by
  by_cases hlt : cur < maxTs
  · rw [migrateLoop_step maxTs src tgt cur tot hlt]
    by_cases hin : x.t_stamp < min (cur + 86400000) maxTs
    · exact hasKey_migrateLoop_mono maxTs src _ _ _ x
        (hasKey_migrate_batch_mem _ _ _ _ _ hx h1 hin)
    · exact hasKey_migrateLoop_mem maxTs src _ (min (cur + 86400000) maxTs) _ x hx
        (by omega) h2
  · omega
termination_by (maxTs - cur).toNat
decreasing_by
  simp_wf
  omega

theorem migrateLoop_noop (maxTs : Int) (src tgt : List Row) (cur : Int) (tot : Nat)
    (h : ∀ x ∈ src, cur ≤ x.t_stamp → x.t_stamp < maxTs → hasKey tgt x = true) :
    (migrateLoop maxTs src tgt cur tot).2 = tgt := by
  by_cases hlt : cur < maxTs
  · rw [migrateLoop_step maxTs src tgt cur tot hlt]
    have hb : (migrate_batch cur (min (cur + 86400000) maxTs) src tgt).2 = tgt :=
      migrate_batch_noop _ _ _ _ fun x hx hx1 hx2 => h x hx hx1 (by omega)
    rw [hb]
    exact migrateLoop_noop maxTs src tgt (min (cur + 86400000) maxTs) _
      fun x hx hx1 hx2 => h x hx (by omega) hx2
  · rw [migrateLoop_base maxTs src tgt cur tot hlt]
termination_by (maxTs - cur).toNat
decreasing_by
  simp_wf
  omega

theorem migrateLoop_len (maxTs : Int) (src tgt : List Row) (cur : Int) (tot : Nat) :
    (migrateLoop maxTs src tgt cur tot).2.length ≤ tgt.length + countIn cur maxTs src := by
  by_cases hlt : cur < maxTs
  · rw [migrateLoop_step maxTs src tgt cur tot hlt]
    have h1 := migrate_batch_len cur (min (cur + 86400000) maxTs) src tgt
    have h2 := migrate_batch_fst cur (min (cur + 86400000) maxTs) src tgt
    have h3 := migrateLoop_len maxTs src
      (migrate_batch cur (min (cur + 86400000) maxTs) src tgt).2
      (min (cur + 86400000) maxTs)
      (tot + (migrate_batch cur (min (cur + 86400000) maxTs) src tgt).1)
    have h4 := countIn_split cur (min (cur + 86400000) maxTs) maxTs src (by omega) (by omega)
    omega
  · rw [migrateLoop_base maxTs src tgt cur tot hlt]
    simp
termination_by (maxTs - cur).toNat
decreasing_by
  simp_wf
  omega

theorem windowsFrom_step (maxTs cur : Int) (h : cur < maxTs) :
    windowsFrom maxTs cur =
      (cur, min (cur + 86400000) maxTs) :: windowsFrom maxTs (min (cur + 86400000) maxTs) := by
  rw [windowsFrom]
  rw [dif_pos h]

theorem windowsFrom_base (maxTs cur : Int) (h : ¬ cur < maxTs) :
    windowsFrom maxTs cur = [] := by
  rw [windowsFrom]
  rw [dif_neg h]

theorem windowsFrom_eq_tileWindows (maxTs cur : Int) :
    windowsFrom maxTs cur = tileWindows 86400000 maxTs cur := by
  by_cases h : cur < maxTs
  · rw [windowsFrom_step maxTs cur h, tileWindows,
      dif_pos (⟨by norm_num, h⟩ : (0 : Int) < 86400000 ∧ cur < maxTs)]
    rw [windowsFrom_eq_tileWindows maxTs (min (cur + 86400000) maxTs)]
  · rw [windowsFrom_base maxTs cur h, tileWindows, dif_neg]
    intro hc
    exact h hc.2
termination_by (maxTs - cur).toNat
decreasing_by
  simp_wf
  omega

theorem migrateLoop_eq_foldl_windows (maxTs : Int) (src tgt : List Row) (cur : Int) (tot : Nat) :
    migrateLoop maxTs src tgt cur tot =
      (windowsFrom maxTs cur).foldl
        (fun acc w =>
          (acc.1 + (migrate_batch w.1 w.2 src acc.2).1, (migrate_batch w.1 w.2 src acc.2).2))
        (tot, tgt) := by
  by_cases h : cur < maxTs
  · rw [migrateLoop_step maxTs src tgt cur tot h, windowsFrom_step maxTs cur h,
      List.foldl_cons]
    exact migrateLoop_eq_foldl_windows maxTs src _ (min (cur + 86400000) maxTs) _
  · rw [migrateLoop_base maxTs src tgt cur tot h, windowsFrom_base maxTs cur h]
    rfl
termination_by (maxTs - cur).toNat
decreasing_by
  simp_wf
  omega

theorem windowsFrom_bounds (maxTs cur : Int) (w : Int × Int)
    (hw : w ∈ windowsFrom maxTs cur) : cur ≤ w.1 ∧ w.1 < w.2 ∧ w.2 ≤ maxTs := by
  by_cases h : cur < maxTs
  · rw [windowsFrom_step maxTs cur h] at hw
    rcases List.mem_cons.mp hw with rfl | hw
    · refine ⟨le_refl _, ?_, ?_⟩ <;> simp <;> omega
    · have hb := windowsFrom_bounds maxTs (min (cur + 86400000) maxTs) w hw
      refine ⟨?_, hb.2.1, hb.2.2⟩
      have := hb.1
      omega
  · rw [windowsFrom_base maxTs cur h] at hw
    cases hw
termination_by (maxTs - cur).toNat
decreasing_by
  simp_wf
  omega

theorem windowsFrom_head_start (maxTs cur : Int) (w : Int × Int)
    (h : (windowsFrom maxTs cur).head? = some w) : w.1 = cur := by
  by_cases hlt : cur < maxTs
  · rw [windowsFrom_step maxTs cur hlt] at h
    simp only [List.head?_cons, Option.some.injEq] at h
    rw [← h]
  · rw [windowsFrom_base maxTs cur hlt] at h
    cases h

theorem windowsFrom_chain (maxTs cur : Int) :
    List.Chain' (fun a b : Int × Int => a.2 = b.1) (windowsFrom maxTs cur) := by
  by_cases h : cur < maxTs
  · rw [windowsFrom_step maxTs cur h]
    rw [List.chain'_cons']
    constructor
    · intro y hy
      exact (windowsFrom_head_start maxTs _ y hy).symm
    · exact windowsFrom_chain maxTs _
  · rw [windowsFrom_base maxTs cur h]
    exact List.chain'_nil
termination_by (maxTs - cur).toNat
decreasing_by
  simp_wf
  omega

theorem windowsFrom_covers (maxTs cur t : Int) (h1 : cur ≤ t) (h2 : t < maxTs) :
    windowsContaining t (windowsFrom maxTs cur) = 1 := by
  have hlt : cur < maxTs := by omega
  rw [windowsFrom_step maxTs cur hlt]
  unfold windowsContaining
  rw [List.filter_cons]
  by_cases hin : t < min (cur + 86400000) maxTs
  · have hc : (decide ((cur, min (cur + 86400000) maxTs).1 ≤ t) &&
        decide (t < (cur, min (cur + 86400000) maxTs).2)) = true := by
      simp only [Bool.and_eq_true, decide_eq_true_eq]
      exact ⟨h1, hin⟩
    rw [if_pos hc]
    have hrest : ((windowsFrom maxTs (min (cur + 86400000) maxTs)).filter fun w =>
        decide (w.1 ≤ t) && decide (t < w.2)) = [] := by
      rw [List.filter_eq_nil]
      intro w hw
      have hb := windowsFrom_bounds maxTs (min (cur + 86400000) maxTs) w hw
      simp only [Bool.and_eq_true, decide_eq_true_eq, not_and]
      intro hw1 hw2
      omega
    rw [List.length_cons, hrest]
    rfl
  · have hc : ¬ ((decide ((cur, min (cur + 86400000) maxTs).1 ≤ t) &&
        decide (t < (cur, min (cur + 86400000) maxTs).2)) = true) := by
      simp only [Bool.and_eq_true, decide_eq_true_eq, not_and]
      intro _
      exact fun hx => hin hx
    rw [if_neg hc]
    exact windowsFrom_covers maxTs (min (cur + 86400000) maxTs) t (by omega) h2
termination_by (maxTs - cur).toNat
decreasing_by
  simp_wf
  omega

theorem windowsFrom_never_covers_max (maxTs cur : Int) :
    windowsContaining maxTs (windowsFrom maxTs cur) = 0 := by
  unfold windowsContaining
  rw [List.length_eq_zero, List.filter_eq_nil]
  intro w hw
  have hb := windowsFrom_bounds maxTs cur w hw
  simp only [Bool.and_eq_true, decide_eq_true_eq, not_and]
  intro _
  omega

theorem migrate_all_some (src tgt : List Row) (mn mx : Int)
    (h : minMaxTs src = some (mn, mx)) :
    migrate_all src tgt = Except.ok (migrateLoop mx src tgt mn 0) := by
  rw [migrate_all, h]

theorem migrate_all_none (src tgt : List Row) (h : minMaxTs src = none) :
    migrate_all src tgt = Except.error "TypeError: NoneType comparison" := by
  rw [migrate_all, h]

/-- Claim C1: the spec requires the record(s) at `MAX(eventTime)` to be
migrated in exactly one window; the code violates this. On a source with
rows at timestamps 0 and 5 (an empty target), the only window the loop
produces is `[0, 5)`, `migrate_all` reports 1 migrated row, and the row
at the maximum timestamp 5 lies in zero windows. -/
theorem C1_max_row_in_no_window :
    migrate_all [mkRow 1 0, mkRow 2 5] [] = Except.ok (1, [mkRow 1 0]) ∧
    windowsFrom 5 0 = [(0, 5)] ∧
    windowsContaining (mkRow 2 5).t_stamp (windowsFrom 5 0) = 0 := by
  refine ⟨?_, ?_, ?_⟩
  · simp [migrate_all, minMaxTs, migrateLoop, migrate_batch, readWindow, orderByTs,
      insertByTs, insertOnConflict, hasKey, sameKey, mkRow]
  · simp [windowsFrom]
  · simp [windowsContaining, windowsFrom, mkRow]

/-- Claim C2: for the spec's concrete scenario (rows at 1000, 90000000,
90000001; width 86400000) the code does produce exactly the 2 expected
windows and window 1 does read only the row at 1000, but window 2 reads
only the row at 90000000 — the row at 90000001 (= max) is dropped by the
half-open read, so the run reports total 2, not the 3 the claim states. -/
theorem C2_scenario_total_is_2_not_3 :
    migrate_all [mkRow 1 1000, mkRow 2 90000000, mkRow 3 90000001] [] =
      Except.ok (2, [mkRow 2 90000000, mkRow 1 1000]) ∧
    windowsFrom 90000001 1000 = [(1000, 86401000), (86401000, 90000001)] ∧
    readWindow 1000 86401000 [mkRow 1 1000, mkRow 2 90000000, mkRow 3 90000001] =
      [mkRow 1 1000] ∧
    readWindow 86401000 90000001 [mkRow 1 1000, mkRow 2 90000000, mkRow 3 90000001] =
      [mkRow 2 90000000] := by
  refine ⟨?_, ?_, ?_, ?_⟩
  · simp [migrate_all, minMaxTs, migrateLoop, migrate_batch, readWindow, orderByTs,
      insertByTs, insertOnConflict, hasKey, sameKey, mkRow]
  · simp [windowsFrom]
  · simp [readWindow, orderByTs, insertByTs, mkRow]
  · simp [readWindow, orderByTs, insertByTs, mkRow]

/-- Claim C3: the spec says a single-record table yields exactly one
window and one migrated record; in the code `min_ts = max_ts` makes the
loop condition `current_ts < max_ts` false at once, so a one-row source
(row at timestamp 1000) gets zero windows and `migrate_all` returns 0. -/
theorem C3_single_row_zero_windows :
    migrate_all [mkRow 1 1000] [] = Except.ok (0, []) ∧
    windowsFrom 1000 1000 = [] := by
  refine ⟨?_, ?_⟩
  · simp [migrate_all, minMaxTs, migrateLoop, mkRow]
  · simp [windowsFrom]

/-- Claim C4: the produced windows are indeed chained (`start_{i+1} = end_i`,
shown generally by `windowsFrom_chain` / `windowsFrom_covers`), but the
claim's "every record eventTime in the source range falls in exactly one
window" fails at the top of the range: with rows at timestamps 10 and 20
the single window is `[10, 20)`, the row at the maximum timestamp 20 is
contained in zero windows, and only 1 of the 2 rows is migrated. -/
theorem C4_windows_chain_but_max_row_uncovered :
    migrate_all [mkRow 1 10, mkRow 2 20] [] = Except.ok (1, [mkRow 1 10]) ∧
    windowsFrom 20 10 = [(10, 20)] ∧
    windowsContaining (mkRow 2 20).t_stamp (windowsFrom 20 10) = 0 := by
  refine ⟨?_, ?_, ?_⟩
  · simp [migrate_all, minMaxTs, migrateLoop, migrate_batch, readWindow, orderByTs,
      insertByTs, insertOnConflict, hasKey, sameKey, mkRow]
  · simp [windowsFrom]
  · simp [windowsContaining, windowsFrom, mkRow]

/-- Claim C5: the spec says an empty source table makes `migrate_all`
return 0 immediately with no windows and no error; in the code the
`MIN/MAX` query returns the SQL NULLs, Python binds `min_ts = max_ts = None`,
and the loop condition `None < None` raises a `TypeError`, so the run
errors instead of returning 0. -/
theorem C5_empty_source_raises :
    migrate_all [] [] = Except.error "TypeError: NoneType comparison" ∧
    minMaxTs ([] : List Row) = none :=
  ⟨rfl, rfl⟩

/-- Claim C6: running `migrate_all` a second time on the same source and
the target produced by the first run returns the same total and leaves
the target exactly as the first run left it (zero additional rows):
after the first run every source row of the processed range has its
uniqueness key present in the target, so every insert of the second run
is skipped by `ON CONFLICT DO NOTHING`. -/
theorem C6_second_run_adds_no_rows (src tgt : List Row) (n1 : Nat) (t1 : List Row)
    (h : migrate_all src tgt = Except.ok (n1, t1)) :
    migrate_all src t1 = Except.ok (n1, t1) := by
  rcases hmm : minMaxTs src with _ | ⟨mn, mx⟩
  · rw [migrate_all_none src tgt hmm] at h
    cases h
  · rw [migrate_all_some src tgt mn mx hmm] at h
    rw [migrate_all_some src t1 mn mx hmm]
    have hrun : migrateLoop mx src tgt mn 0 = (n1, t1) := by
      injection h
    have hfst : n1 = countIn mn mx src := by
      have hh := migrateLoop_fst mx src tgt mn 0
      rw [hrun] at hh
      simpa using hh
    have hkeys : ∀ x ∈ src, mn ≤ x.t_stamp → x.t_stamp < mx → hasKey t1 x = true := by
      intro x hx h1 h2
      have hh := hasKey_migrateLoop_mem mx src tgt mn 0 x hx h1 h2
      rw [hrun] at hh
      exact hh
    have hsnd : (migrateLoop mx src t1 mn 0).2 = t1 :=
      migrateLoop_noop mx src t1 mn 0 hkeys
    have hfst2 : (migrateLoop mx src t1 mn 0).1 = n1 := by
      rw [hfst]
      simpa using migrateLoop_fst mx src t1 mn 0
    rw [show migrateLoop mx src t1 mn 0 =
      ((migrateLoop mx src t1 mn 0).1, (migrateLoop mx src t1 mn 0).2) from rfl]
    rw [hfst2, hsnd]

/-- Witness for C6 at a concrete source/target pair. -/
theorem C6_second_run_adds_no_rows_witness :
    migrate_all [mkRow 1 0, mkRow 2 5] [mkRow 1 0] = Except.ok (1, [mkRow 1 0]) :=
  C6_second_run_adds_no_rows [mkRow 1 0, mkRow 2 5] [] 1 [mkRow 1 0]
    (by simp [migrate_all, minMaxTs, migrateLoop, migrate_batch, readWindow, orderByTs,
      insertByTs, insertOnConflict, hasKey, sameKey, mkRow])

/-- Claim C7: a window whose half-open range matches no source row makes
`migrate_batch` return 0 and leave the target untouched (the early
return fires before any insert). -/
theorem C7_empty_window_no_write (s e : Int) (src tgt : List Row)
    (h : ∀ x ∈ src, ¬ (s ≤ x.t_stamp ∧ x.t_stamp < e)) :
    migrate_batch s e src tgt = (0, tgt) := by
  have hf : (src.filter fun r => decide (s ≤ r.t_stamp) && decide (r.t_stamp < e)) = [] := by
    rw [List.filter_eq_nil]
    intro x hx
    simp only [Bool.and_eq_true, decide_eq_true_eq, not_and]
    intro hle hltn
    exact h x hx ⟨hle, hltn⟩
  unfold migrate_batch readWindow
  rw [hf]
  rfl

/-- Witness for C7: a window below every source timestamp. -/
theorem C7_empty_window_no_write_witness :
    migrate_batch 0 50 [mkRow 1 100] [mkRow 2 3] = (0, [mkRow 2 3]) :=
  C7_empty_window_no_write 0 50 [mkRow 1 100] [mkRow 2 3] (by decide)

/-- Claim C8: `validate_migration` only reads: both tables come back
unchanged, it returns a report for every input (no error path), and each
of the three comparisons surfaces only as a boolean match flag that is
true exactly when the compared quantities agree. -/
theorem C8_validate_read_only (src tgt : List Row) :
    (validate_migration src tgt).2.1 = src ∧
    (validate_migration src tgt).2.2 = tgt ∧
    ((validate_migration src tgt).1.countsMatch = true ↔ src.length = tgt.length) ∧
    ((validate_migration src tgt).1.rangesMatch = true ↔ minMaxTs src = minMaxTs tgt) ∧
    ((validate_migration src tgt).1.tagsMatch = true ↔
      distinctTagCount src = distinctTagCount tgt) := by
  refine ⟨rfl, rfl, ?_, ?_, ?_⟩ <;> simp [validate_migration]

/-- Claim C9: the total `migrate_all` reports is the number of source
rows READ in the processed range `[min_ts, max_ts)` — an expression not
depending on the target at all — while the rows actually added to the
target are at most that many (inserts may be skipped as duplicates), so
the reported total can exceed the newly added rows. -/
theorem C9_total_counts_reads (src tgt : List Row) (mn mx : Int)
    (h : minMaxTs src = some (mn, mx)) :
    ∃ tgt2, migrate_all src tgt = Except.ok (countIn mn mx src, tgt2) ∧
      tgt2.length ≤ tgt.length + countIn mn mx src := by
  refine ⟨(migrateLoop mx src tgt mn 0).2, ?_, ?_⟩
  · rw [migrate_all_some src tgt mn mx h]
    have hfst : (migrateLoop mx src tgt mn 0).1 = countIn mn mx src := by
      simpa using migrateLoop_fst mx src tgt mn 0
    rw [← hfst]
  · simpa using migrateLoop_len mx src tgt mn 0

/-- Witness for C9: a target that already holds one of the source rows. -/
theorem C9_total_counts_reads_witness :
    ∃ tgt2, migrate_all [mkRow 1 0, mkRow 2 5] [mkRow 1 0] =
      Except.ok (countIn 0 5 [mkRow 1 0, mkRow 2 5], tgt2) ∧
      tgt2.length ≤ [mkRow 1 0].length + countIn 0 5 [mkRow 1 0, mkRow 2 5] :=
  C9_total_counts_reads [mkRow 1 0, mkRow 2 5] [mkRow 1 0] 0 5 (by decide)

/-- Claim C10: the migration operations of a `HistorianMigration`
instance give the same result whatever `batch_size` the constructor
stored (the field is never read), and the window tiling of `migrate_all`
is exactly the tiling with the hard-coded width 86400000 ms. -/
theorem C10_width_hard_coded_batch_size_unused :
    (∀ (b b' : Nat) (src tgt : List Row),
      (HistorianMigration.mk b).migrateAllOp src tgt =
        (HistorianMigration.mk b').migrateAllOp src tgt) ∧
    (∀ maxTs cur : Int, windowsFrom maxTs cur = tileWindows 86400000 maxTs cur) :=
  ⟨fun _ _ _ _ => rfl, windowsFrom_eq_tileWindows⟩

end MigrateHistorianData
